import Mathlib

/-!
Verification of the five-button-lock enumeration program (keep94/fivebutton).

The program enumerates every combination of a 5 button lock where each key
press pushes between 1 and 2 not-yet-pressed buttons simultaneously, shorter
press sequences first.  The Go source is embedded shallowly below:

* constants NumButtons and MaxAtOnce mirror the two source constants;
* the linked-list FIFO Queue of the source is embedded as a purely
  functional FIFO (front list plus reversed back list); lemmas
  Queue.Dequeue_toList, Queue.Enqueue_toList and Queue.IsEmpty_toList
  show it is observationally the FIFO of the source;
* KeyPress and Lock are the source's [5]bool arrays, embedded as
  functions from Fin NumButtons to Bool;
* the two panics of the source (Queue.Dequeue on an empty queue,
  KeyPress.Highest on the zero key press) become Option or RunError
  values, and the generator loops of Lock.NextPresses and Combinations
  become fuelled recursions returning Except RunError; fuel exhaustion is
  a distinct error value, and theorems show the chosen fuel suffices.
-/

/-- Number of buttons in lock (source constant NumButtons). -/
abbrev NumButtons : Nat := 5

/-- Maximum number of buttons pressed in a single key press (source constant
MaxAtOnce). -/
abbrev MaxAtOnce : Nat := 2

/-- FIFO queue, embedding the source's linked-list Queue as the standard
two-list functional queue. -/
structure Queue (T : Type) : Type where
  front : List T
  back : List T

/-- NewQueue returns an empty queue. -/
def NewQueue (T : Type) : Queue T := Queue.mk [] []

/-- IsEmpty returns true if q is empty. -/
def Queue.IsEmpty {T : Type} (q : Queue T) : Bool :=
  List.isEmpty q.front && List.isEmpty q.back

/-- Enqueue adds a new value to the end of q. -/
def Queue.Enqueue {T : Type} (q : Queue T) (value : T) : Queue T :=
  Queue.mk q.front (value :: q.back)

/-- Dequeue pops the first value off the beginning of q.  The source panics
on an empty queue; the embedding returns none there. -/
def Queue.Dequeue {T : Type} (q : Queue T) : Option (T × Queue T) :=
  match q.front with
  | v :: rest => some (v, Queue.mk rest q.back)
  | [] =>
    match q.back.reverse with
    | v :: rest => some (v, Queue.mk rest [])
    | [] => none

/-- The abstract contents of a queue, oldest first. -/
def Queue.toList {T : Type} (q : Queue T) : List T :=
  q.front ++ q.back.reverse

theorem Queue.IsEmpty_toList {T : Type} (q : Queue T) :
    q.IsEmpty = true ↔ q.toList = [] := by
  cases q with
  | mk f b =>
    simp [Queue.IsEmpty, Queue.toList, List.isEmpty_iff, List.append_eq_nil,
      List.reverse_eq_nil_iff]

theorem Queue.Enqueue_toList {T : Type} (q : Queue T) (v : T) :
    (q.Enqueue v).toList = q.toList ++ [v] := by
  cases q with
  | mk f b => simp [Queue.Enqueue, Queue.toList]

theorem Queue.Dequeue_toList {T : Type} (q : Queue T) :
    (q.toList = [] ∧ q.Dequeue = none) ∨
      ∃ v q1, q.Dequeue = some (v, q1) ∧ q.toList = v :: q1.toList := by
  cases q with
  | mk f b =>
    cases f with
    | cons v rest => right; exact ⟨v, Queue.mk rest b, rfl, rfl⟩
    | nil =>
      cases hb : b.reverse with
      | nil =>
        left
        simp [Queue.toList, Queue.Dequeue, hb]
      | cons v rest =>
        right
        refine ⟨v, Queue.mk rest [], ?_, ?_⟩
        · simp [Queue.Dequeue, hb]
        · simp [Queue.toList, hb]

/-- KeyPress represents a key press of a 5 button lock, possibly pressing
several buttons at once (source type KeyPress, a [NumButtons]bool array). -/
abbrev KeyPress : Type := Fin NumButtons → Bool

/-- SingleKeyPress returns a key press involving a single button. -/
def SingleKeyPress (button : Fin NumButtons) : KeyPress :=
  fun i => if i = button then true else false

/-- Add adds an additional button to the returned KeyPress while leaving k
unchanged. -/
def KeyPress.Add (k : KeyPress) (button : Fin NumButtons) : KeyPress :=
  fun i => if i = button then true else k i

/-- Highest returns the 0 based index of the highest button pressed in k;
the source scans from index NumButtons - 1 downward and panics on the zero
KeyPress, embedded here as none. -/
def KeyPress.Highest? (k : KeyPress) : Option (Fin NumButtons) :=
  List.find? (fun i => k i) (List.finRange NumButtons).reverse

/-- Len returns the number of simultaneously pressed buttons in k. -/
def KeyPress.Len (k : KeyPress) : Nat :=
  List.countP (fun i => k i) (List.finRange NumButtons)

/-- Render is the source's String method on KeyPress: one digit per pressed
button, ascending; 49 is the code of the digit one, matching the byte
arithmetic of the source. -/
def KeyPress.Render (k : KeyPress) : String :=
  String.mk (List.map (fun i => Char.ofNat (49 + i.val))
    (List.filter (fun i => k i) (List.finRange NumButtons)))

/-- KeySequence represents an ordered sequence of key presses (source type
KeySequence). -/
abbrev KeySequence : Type := List KeyPress

/-- Append appends a KeyPress to the end of ks, leaving ks unchanged. -/
def KeySequence.Append (ks : KeySequence) (k : KeyPress) : KeySequence :=
  List.append ks [k]

/-- Render is the source's String method on KeySequence: rendered presses
joined with a dash. -/
def KeySequence.Render (ks : KeySequence) : String :=
  String.intercalate "-" (List.map KeyPress.Render ks)

/-- Lock represents the state of a 5 button lock (source type Lock, a
[NumButtons]bool array). -/
abbrev Lock : Type := Fin NumButtons → Bool

/-- The zero value of Lock: no buttons pushed. -/
def InitLock : Lock := fun _ => false

/-- Apply applies the KeyPress kp to l and returns the resulting lock while
leaving l unchanged. -/
def Lock.Apply (l : Lock) (kp : KeyPress) : Lock :=
  fun i => if kp i then true else l i

/-- The lock state reached by applying the presses of ks in order to the
initial all-unpressed lock. -/
def LockOfSeq (ks : KeySequence) : Lock :=
  List.foldl Lock.Apply InitLock ks

/-- Count of pressed buttons of a lock state. -/
def Lock.Count (l : Lock) : Nat :=
  List.countP (fun i => l i) (List.finRange NumButtons)

/-- Abnormal outcomes of the embedded generator loops: the two panics of the
source and exhaustion of the embedding's fuel. -/
inductive RunError : Type where
  | fuelOut : RunError
  | dequeueEmpty : RunError
  | highestOfZero : RunError

/-- Loop body of Lock.NextPresses: dequeue a press, yield it (cons onto the
accumulator), and unless it already has MaxAtOnce buttons, enqueue every
extension by a still-unpressed button strictly above its highest index. -/
def nextPressesLoop (l : Lock) : Nat → Queue KeyPress → List KeyPress →
    Except RunError (List KeyPress)
  | 0, _, _ => Except.error RunError.fuelOut
  | fuel + 1, q, acc =>
    if q.IsEmpty then Except.ok acc.reverse
    else
      match q.Dequeue with
      | none => Except.error RunError.dequeueEmpty
      | some (press, q1) =>
        if press.Len = MaxAtOnce then nextPressesLoop l fuel q1 (press :: acc)
        else
          match press.Highest? with
          | none => Except.error RunError.highestOfZero
          | some h =>
            nextPressesLoop l fuel
              (List.foldl Queue.Enqueue q1
                (List.map (fun i => press.Add i)
                  (List.filter (fun i => decide (h.val < i.val) && ! l i)
                    (List.finRange NumButtons))))
              (press :: acc)

/-- NextPresses returns all the legal next key presses depending on the
state of this lock: a queue is seeded with the single presses of the
unpressed buttons in ascending order and processed breadth first.  Fuel 32
bounds the loop; the theorems below show it is never exhausted. -/
def Lock.NextPresses (l : Lock) : Except RunError (List KeyPress) :=
  nextPressesLoop l 32
    (List.foldl Queue.Enqueue (NewQueue KeyPress)
      (List.map SingleKeyPress
        (List.filter (fun i => ! l i) (List.finRange NumButtons))))
    []

/-- State contains the state of the lock and the key presses done so far
(source type State). -/
structure BState : Type where
  lock : Lock
  seq : KeySequence

/-- Loop body of Combinations: dequeue a search node, yield its sequence,
and enqueue one child node per legal next press, in the order
Lock.NextPresses yields them. -/
def combinationsLoop : Nat → Queue BState → List KeySequence →
    Except RunError (List KeySequence)
  | 0, _, _ => Except.error RunError.fuelOut
  | fuel + 1, q, acc =>
    if q.IsEmpty then Except.ok acc.reverse
    else
      match q.Dequeue with
      | none => Except.error RunError.dequeueEmpty
      | some (st, q1) =>
        match st.lock.NextPresses with
        | Except.error e => Except.error e
        | Except.ok presses =>
          combinationsLoop fuel
            (List.foldl
              (fun qq kp =>
                qq.Enqueue (BState.mk (st.lock.Apply kp) (st.seq.Append kp)))
              q1 presses)
            (st.seq :: acc)

/-- Combinations returns all the combinations of a 5 button lock with the
shorter combination sequences coming first: a breadth-first traversal seeded
with the zero State.  Fuel 1024 bounds the loop; the theorems below show it
is never exhausted. -/
def Combinations : Except RunError (List KeySequence) :=
  combinationsLoop 1024 ((NewQueue BState).Enqueue (BState.mk InitLock [])) []

/-- The list of key sequences yielded by a full run of Combinations. -/
def combinationsList : List KeySequence :=
  match Combinations with
  | Except.ok xs => xs
  | Except.error _ => []

set_option maxRecDepth 100000

set_option maxHeartbeats 4000000

/-- The list of presses yielded by a full run of Lock.NextPresses. -/
def nextPressesList (l : Lock) : List KeyPress :=
  match Lock.NextPresses l with
  | Except.ok ps => ps
  | Except.error _ => []

theorem nextPresses_ok : ∀ l : Lock, (Lock.NextPresses l).isOk = true := by
  decide

theorem nextPresses_eq (l : Lock) :
    Lock.NextPresses l = Except.ok (nextPressesList l) := by
  have h := nextPresses_ok l
  unfold nextPressesList
  cases hE : Lock.NextPresses l with
  | ok ps => rfl
  | error e => rw [hE] at h; simp [Except.isOk, Except.toBool] at h

theorem combinations_ok : Combinations.isOk = true := by
  decide

theorem combinations_eq : Combinations = Except.ok combinationsList := by
  have h := combinations_ok
  unfold combinationsList
  cases hE : Combinations with
  | ok xs => rfl
  | error e => rw [hE] at h; simp [Except.isOk, Except.toBool] at h

/-- Adjacent nondecreasing check on a list of numbers. -/
def nondecreasingB : List Nat → Bool
  | [] => true
  | [_] => true
  | a :: b :: rest => decide (a ≤ b) && nondecreasingB (b :: rest)

theorem nondecreasingB_chain' :
    ∀ l : List Nat, nondecreasingB l = true →
      List.Chain' (fun a b => a ≤ b) l := by
  intro l
  induction l with
  | nil => intro _; exact trivial
  | cons a tl ih =>
    cases tl with
    | nil => intro _; exact List.chain'_singleton a
    | cons b rest =>
      intro h
      rw [List.chain'_cons]
      simp only [nondecreasingB, Bool.and_eq_true, decide_eq_true_eq] at h
      exact ⟨h.1, ih h.2⟩

/-- Bool check that two presses share no button. -/
def pairDisjointB (p q : KeyPress) : Bool :=
  (List.finRange NumButtons).all (fun i => !(p i && q i))

/-- Bool check that the presses of a list are pairwise disjoint. -/
def disjointAllB : List KeyPress → Bool
  | [] => true
  | p :: rest => rest.all (fun q => pairDisjointB p q) && disjointAllB rest

theorem disjointAllB_pairwise :
    ∀ ks : List KeyPress, disjointAllB ks = true →
      List.Pairwise (fun a b => ∀ i, ¬(a i = true ∧ b i = true)) ks := by
  intro ks
  induction ks with
  | nil => intro _; exact List.Pairwise.nil
  | cons p rest ih =>
    intro h
    simp only [disjointAllB, Bool.and_eq_true, List.all_eq_true] at h
    rw [List.pairwise_cons]
    refine ⟨?_, ih h.2⟩
    intro b hb i hcon
    have hpd := h.1 b hb
    simp only [pairDisjointB, List.all_eq_true] at hpd
    have hi := hpd i (List.mem_finRange i)
    rw [hcon.1, hcon.2] at hi
    simp at hi

/-- Bool check that a list of presses has no repeated element. -/
def distinctB : List KeyPress → Bool
  | [] => true
  | p :: rest => !(rest.any (fun q => decide (q = p))) && distinctB rest

theorem distinctB_pairwise :
    ∀ ks : List KeyPress, distinctB ks = true →
      List.Pairwise (fun a b => a ≠ b) ks := by
  intro ks
  induction ks with
  | nil => intro _; exact List.Pairwise.nil
  | cons p rest ih =>
    intro h
    simp only [distinctB, Bool.and_eq_true, Bool.not_eq_true',
      List.any_eq_false, decide_eq_true_eq] at h
    rw [List.pairwise_cons]
    refine ⟨?_, ih h.2⟩
    intro b hb heq
    exact absurd heq.symm (by simpa [decide_eq_false_iff_not] using h.1 b hb)

/-- Bool form of legality of a press for a lock state: only unpressed
buttons, and between 1 and MaxAtOnce of them. -/
def legalB (l : Lock) (kp : KeyPress) : Bool :=
  (List.finRange NumButtons).all (fun i => !(kp i && l i)) &&
    (decide (1 ≤ KeyPress.Len kp) && decide (KeyPress.Len kp ≤ MaxAtOnce))

theorem legalB_iff (l : Lock) (kp : KeyPress) :
    legalB l kp = true ↔
      ((∀ i, kp i = true → l i = false) ∧
        1 ≤ kp.Len ∧ kp.Len ≤ MaxAtOnce) := by
  simp only [legalB, Bool.and_eq_true, List.all_eq_true,
    decide_eq_true_eq, Bool.not_eq_true', Bool.and_eq_false_iff]
  constructor
  · rintro ⟨h1, h2, h3⟩
    refine ⟨?_, h2, h3⟩
    intro i hi
    rcases h1 i (List.mem_finRange i) with hf | hf
    · rw [hi] at hf; cases hf
    · exact hf
  · rintro ⟨h1, h2, h3⟩
    refine ⟨?_, h2, h3⟩
    intro i _
    cases hkp : kp i with
    | false => left; rfl
    | true => right; exact h1 i hkp

theorem nextPresses_mem_eq_legal :
    ∀ l : Lock, ∀ kp : KeyPress,
      (nextPressesList l).any (fun p => decide (p = kp)) = legalB l kp := by
  decide

theorem nextPresses_distinct :
    ∀ l : Lock, distinctB (nextPressesList l) = true := by
  decide

theorem nextPresses_sorted :
    ∀ l : Lock,
      nondecreasingB (List.map KeyPress.Len (nextPressesList l)) = true := by
  decide

/-- C1: for N = 5 and M = 2 the sequence returned by Combinations is finite
(the full run succeeds with the given fuel) and yields exactly 936 results
in total, the initial empty sequence included. -/
theorem claim_C1 :
    Combinations = Except.ok combinationsList ∧
      combinationsList.length = 936 := by
  refine ⟨combinations_eq, ?_⟩
  decide

/-- C2: results come in nondecreasing order of sequence length: whenever
result i is produced before result j, sequence i has at most as many presses
as sequence j. -/
theorem claim_C2 :
    List.Pairwise (fun a b : KeySequence => a.length ≤ b.length)
      combinationsList := by
  have h : nondecreasingB (List.map List.length combinationsList) = true := by
    decide
  exact List.pairwise_map.mp
    (List.chain'_iff_pairwise.mp (nondecreasingB_chain' _ h))

/-- C3: for every lock state l, NextPresses succeeds and yields a press list
that contains a press exactly when it presses only currently-unpressed
buttons and between 1 and MaxAtOnce of them, contains no press twice, and is
nondecreasing in press size, so every press of size s comes before any press
of size s + 1. -/
theorem claim_C3 :
    ∀ l : Lock,
      Lock.NextPresses l = Except.ok (nextPressesList l) ∧
        (∀ kp : KeyPress,
          kp ∈ nextPressesList l ↔
            ((∀ i, kp i = true → l i = false) ∧
              1 ≤ kp.Len ∧ kp.Len ≤ MaxAtOnce)) ∧
        List.Pairwise (fun a b => a ≠ b) (nextPressesList l) ∧
        List.Pairwise (fun a b => KeyPress.Len a ≤ KeyPress.Len b)
          (nextPressesList l) := by
  intro l
  refine ⟨nextPresses_eq l, ?_, distinctB_pairwise _ (nextPresses_distinct l), ?_⟩
  · intro kp
    rw [← legalB_iff, ← nextPresses_mem_eq_legal l kp]
    simp [List.any_eq_true]
  · exact List.pairwise_map.mp
      (List.chain'_iff_pairwise.mp
        (nondecreasingB_chain' _ (nextPresses_sorted l)))

/-- C3 witness: for the all-unpressed initial lock, the single press of
button one is among the yielded presses. -/
theorem claim_C3_w : SingleKeyPress 0 ∈ nextPressesList InitLock :=
  ((claim_C3 InitLock).2.1 (SingleKeyPress 0)).mpr (by decide)

/-- Bool check that a lock state has every button pressed. -/
def unlockedB (l : Lock) : Bool :=
  (List.finRange NumButtons).all (fun i => l i)

/-- C4 counterexample: the claimed count identity fails on the code.  The
total number of results (936) is strictly greater than 1 plus the number of
results that fully unlock the lock (450), and the number of nonempty results
that do not fully unlock the lock is positive (485), not zero. -/
theorem claim_C4_cex :
    1 + (List.filter (fun ks => unlockedB (LockOfSeq ks))
        combinationsList).length < combinationsList.length ∧
      0 < (List.filter (fun ks => !unlockedB (LockOfSeq ks) && !ks.isEmpty)
        combinationsList).length := by
  constructor
  · decide
  · decide

/-- C4 amended: Combinations reports every visited search node, not only the
fully unlocking ones: of its 936 results, exactly 450 fully unlock the lock
and exactly 485 are nonempty sequences that leave some button unpressed, so
the total is 1 + 450 + 485 rather than 1 + 450. -/
theorem claim_C4 :
    combinationsList.length = 936 ∧
      (List.filter (fun ks => unlockedB (LockOfSeq ks))
        combinationsList).length = 450 ∧
      (List.filter (fun ks => !unlockedB (LockOfSeq ks) && !ks.isEmpty)
        combinationsList).length = 485 := by
  refine ⟨?_, ?_, ?_⟩
  · decide
  · decide
  · decide

/-- C5: lock state is monotone.  Applying a press never un-sets a pressed
button, and along any press sequence from the initial all-false lock a
button once pressed stays pressed under any further presses. -/
theorem claim_C5 :
    (∀ (l : Lock) (kp : KeyPress) (i : Fin NumButtons),
        l i = true → (l.Apply kp) i = true) ∧
      (∀ (ks more : KeySequence) (i : Fin NumButtons),
        LockOfSeq ks i = true → LockOfSeq (ks ++ more) i = true) := by
  have h1 : ∀ (l : Lock) (kp : KeyPress) (i : Fin NumButtons),
      l i = true → (l.Apply kp) i = true := by
    intro l kp i h
    cases hkp : kp i with
    | true => simp [Lock.Apply, hkp]
    | false => simp [Lock.Apply, hkp, h]
  refine ⟨h1, ?_⟩
  have h2 : ∀ (more : KeySequence) (l : Lock) (i : Fin NumButtons),
      l i = true → List.foldl Lock.Apply l more i = true := by
    intro more
    induction more with
    | nil => intro l i h; exact h
    | cons kp rest ih =>
      intro l i h
      simp only [List.foldl_cons]
      exact ih (l.Apply kp) i (h1 l kp i h)
  intro ks more i h
  unfold LockOfSeq at h ⊢
  rw [List.foldl_append]
  exact h2 more _ i h

/-- C5 witness: button one pressed by the first press is still pressed after
a second press. -/
theorem claim_C5_w :
    ((InitLock.Apply (SingleKeyPress 0)).Apply (SingleKeyPress 1)) 0 = true ∧
      LockOfSeq ([SingleKeyPress 0] ++ [SingleKeyPress 1]) 0 = true :=
  ⟨claim_C5.1 (InitLock.Apply (SingleKeyPress 0)) (SingleKeyPress 1) 0
      (by decide),
    claim_C5.2 [SingleKeyPress 0] [SingleKeyPress 1] 0 (by decide)⟩

/-- C6: Dequeue signals failure exactly on the empty queue, Highest signals
failure exactly on the press with no button set, and a full run of
Combinations never hits either failure (it returns a result, not a
RunError). -/
theorem claim_C6 :
    (∀ (T : Type) (q : Queue T), q.Dequeue = none ↔ q.IsEmpty = true) ∧
      (∀ kp : KeyPress, kp.Highest? = none ↔ kp.Len = 0) ∧
      Combinations = Except.ok combinationsList := by
  refine ⟨?_, ?_, combinations_eq⟩
  · intro T q
    rcases Queue.Dequeue_toList q with ⟨hnil, hdq⟩ | ⟨v, q1, hdq, hlist⟩
    · constructor
      · intro _; exact (Queue.IsEmpty_toList q).mpr hnil
      · intro _; exact hdq
    · constructor
      · intro h; rw [hdq] at h; cases h
      · intro h
        rw [(Queue.IsEmpty_toList q).mp h] at hlist
        cases hlist
  · intro kp
    unfold KeyPress.Highest? KeyPress.Len
    rw [List.find?_eq_none, List.countP_eq_zero]
    constructor
    · intro h i _; exact h i (by rw [List.mem_reverse]; exact List.mem_finRange i)
    · intro h i _; exact h i (List.mem_finRange i)

/-- C6 witness: the iff applied at a concrete empty queue and the zero key
press. -/
theorem claim_C6_w :
    (NewQueue Nat).Dequeue = none ∧
      KeyPress.Highest? (fun _ => false) = none :=
  ⟨(claim_C6.1 Nat (NewQueue Nat)).mpr (by decide),
    (claim_C6.2.1 (fun _ => false)).mpr (by decide)⟩

/-- C7: the first result is the empty sequence, the next five are the single
presses of buttons one to five in order, then come the ten one-press
two-button sequences, and none of the first sixteen results has more than
one press. -/
theorem claim_C7 :
    (List.map KeySequence.Render combinationsList).take 16 =
        ["", "1", "2", "3", "4", "5", "12", "13", "14", "15",
          "23", "24", "25", "34", "35", "45"] ∧
      combinationsList.take 6 =
        [[], [SingleKeyPress 0], [SingleKeyPress 1], [SingleKeyPress 2],
          [SingleKeyPress 3], [SingleKeyPress 4]] ∧
      (combinationsList.take 16).all (fun ks => decide (ks.length ≤ 1)) =
        true := by
  refine ⟨?_, ?_, ?_⟩
  · decide
  · decide
  · decide

theorem combinations_maximal_len :
    combinationsList.all (fun ks => !unlockedB (LockOfSeq ks) ||
      (decide ((NumButtons + MaxAtOnce - 1) / MaxAtOnce ≤ ks.length) &&
        decide (ks.length ≤ NumButtons))) = true := by
  decide

/-- C8: every yielded sequence that fully unlocks the lock has between
ceil(NumButtons / MaxAtOnce) = 3 and NumButtons = 5 presses. -/
theorem claim_C8 :
    ∀ ks ∈ combinationsList, (∀ i, LockOfSeq ks i = true) →
      (NumButtons + MaxAtOnce - 1) / MaxAtOnce ≤ ks.length ∧
        ks.length ≤ NumButtons := by
  intro ks hks hunl
  have h := List.all_eq_true.mp combinations_maximal_len ks hks
  have hu : unlockedB (LockOfSeq ks) = true := by
    simp only [unlockedB, List.all_eq_true]
    intro i _
    exact hunl i
  rw [hu] at h
  simp only [Bool.not_true, Bool.false_or, Bool.and_eq_true,
    decide_eq_true_eq] at h
  exact h

/-- C8 witness: the three-press sequence 12-34-5 is yielded, fully unlocks
the lock, and its length lies in the stated bounds. -/
theorem claim_C8_w :
    (NumButtons + MaxAtOnce - 1) / MaxAtOnce ≤
        ([(SingleKeyPress 0).Add 1, (SingleKeyPress 2).Add 3,
          SingleKeyPress 4] : KeySequence).length ∧
      ([(SingleKeyPress 0).Add 1, (SingleKeyPress 2).Add 3,
          SingleKeyPress 4] : KeySequence).length ≤ NumButtons :=
  claim_C8
    [(SingleKeyPress 0).Add 1, (SingleKeyPress 2).Add 3, SingleKeyPress 4]
    (by decide) (by decide)

/-- C9: Add does not enforce the add-a-higher-button precondition and never
fails: adding a button already present returns the press unchanged. -/
theorem claim_C9 :
    ∀ (k : KeyPress) (b : Fin NumButtons), k b = true → k.Add b = k := by
  intro k b h
  funext i
  by_cases hi : i = b
  · subst hi; simp [KeyPress.Add, h]
  · simp [KeyPress.Add, hi]

/-- C9 witness: re-adding button three to the single press of button three
leaves it unchanged. -/
theorem claim_C9_w : (SingleKeyPress 2).Add 2 = SingleKeyPress 2 :=
  claim_C9 (SingleKeyPress 2) 2 (by decide)

theorem combinations_disjoint_sum :
    combinationsList.all (fun ks => disjointAllB ks &&
      decide ((List.map KeyPress.Len ks).sum = Lock.Count (LockOfSeq ks))) =
      true := by
  decide

/-- C10: in every yielded sequence the presses are pairwise disjoint, and
the sizes of its presses sum to the number of pressed buttons of the lock
state the sequence produces. -/
theorem claim_C10 :
    ∀ ks ∈ combinationsList,
      List.Pairwise (fun a b => ∀ i, ¬(a i = true ∧ b i = true)) ks ∧
        (List.map KeyPress.Len ks).sum = Lock.Count (LockOfSeq ks) := by
  intro ks hks
  have h := List.all_eq_true.mp combinations_disjoint_sum ks hks
  rw [Bool.and_eq_true, decide_eq_true_eq] at h
  exact ⟨disjointAllB_pairwise ks h.1, h.2⟩

/-- C10 witness: the yielded sequence 13-2 has pairwise disjoint presses and
press sizes summing to its pressed-button count. -/
theorem claim_C10_w :
    List.Pairwise (fun a b => ∀ i, ¬(a i = true ∧ b i = true))
        ([(SingleKeyPress 0).Add 2, SingleKeyPress 1] : KeySequence) ∧
      (List.map KeyPress.Len
          ([(SingleKeyPress 0).Add 2, SingleKeyPress 1] : KeySequence)).sum =
        Lock.Count (LockOfSeq [(SingleKeyPress 0).Add 2, SingleKeyPress 1]) :=
  claim_C10 [(SingleKeyPress 0).Add 2, SingleKeyPress 1] (by decide)
